import Mathlib

/-!
# Verification of the `winston-batch-transport` batching/dispatch/retry/backup engine

Shallow embedding of the engine implemented in `src/src/index.ts` and its
fuller variant `src/unnamed/part_001` (the variant with the retry timer,
`init`-time backup truncation, flush-time permanent-failure classification and
the draining `close`).  Where the two main variants differ, the embedding
follows `src/unnamed/part_001`, which is the variant the specification
describes; differences are noted at the definition concerned.

JavaScript platform builtins used by the code (`Date`, `JSON.parse` /
`JSON.stringify`, the JS value universe) are external to the repository and are
modelled at the level of structure the engine relies on:

* JS runtime values appearing in log-record fields are modelled by `JSVal`
  (strings, numbers, `undefined`, and an opaque constructor for all other
  values);
* JSON documents are modelled as trees (`Json`); the text layer
  (`JSON.stringify` / `JSON.parse` being mutually inverse on trees) is the
  builtin's own contract;
* `Date.prototype.toISOString` / `new Date(string)` are modelled by an
  injective rendering of the epoch instant into a decimal string together with
  its computable partial inverse — the engine relies only on the rendering
  being a string, deterministic in the instant, and parseable back to it.

Asynchronous methods are embedded as atomic state transitions on an explicit
engine state; the network is an outcome oracle (`SendOutcome`), and the state
carries traces of network calls and backoff sleeps so that temporal claims
become statements about the traces.
-/

/-- Model of the JS value universe as it appears in log-record fields.
`info` is typed `any` in the source, so `info.level` / `info.message` may be
any JS value; the engine only ever distinguishes strings (via `typeof`),
renders values with `String(...)`, and treats everything else opaquely.
`.other` abstracts all remaining values (objects, arrays, booleans, `null`);
their `String(...)` rendering and JSON serialization are not needed by any
claim and are given fixed placeholder behaviour. -/
inductive JSVal where
  | str (s : String)
  | num (n : Int)
  | undefined
  | other
  deriving DecidableEq, Repr

namespace JSVal

/-- `typeof v === 'string'`. -/
def isStr : JSVal → Bool
  | .str _ => true
  | _ => false

/-- `String(v)`: the JS string conversion. -/
def jsString : JSVal → String
  | .str s => s
  | .num n => n.repr
  | .undefined => "undefined"
  | .other => "[object Object]"

end JSVal

/-- The `LogEntry` record shape of the source (`{level, message, timestamp}`).
The TypeScript interface declares all three fields `string`, but the enqueue
path copies `info.level` / `info.message` out of an `any`-typed record, so at
runtime the fields can hold arbitrary JS values; `validateLog` re-checks
`typeof` exactly because of this. -/
structure LogEntry where
  level : JSVal
  message : JSVal
  timestamp : JSVal
  deriving DecidableEq, Repr

/-! ## Model of the `Date` builtin

`toISOString t` stands for the canonical ISO-8601 text of the epoch instant
`t`; we render `t` in decimal, which preserves the properties the engine
relies on (string-valued, deterministic, injective, and `dateParse` recovers
the instant).  `dateParse` models the validity test
`new Date(s).toString() !== 'Invalid Date'` together with the recovered
instant; non-canonical date strings that real JS would also accept are modelled
as unparseable, which no claim depends on. -/

/-- Decimal digit characters of `t`, most significant first (rendered with
core's `Nat.digitChar`, the same digit table `Nat.repr` uses). -/
def natChars (t : Nat) : List Char :=
  if t = 0 then ['0']
  else ((Nat.digits 10 t).map Nat.digitChar).reverse

/-- Model of `Date.prototype.toISOString` applied to epoch instant `t`. -/
def toISOString (t : Nat) : String :=
  String.mk (natChars t)

/-- Model of `new Date(s)`: `some t` when `s` is the canonical text of
instant `t`, `none` when `s` is an invalid date. -/
def dateParse (s : String) : Option Nat :=
  if s.data ≠ [] ∧ s.data.all (fun c => 48 ≤ c.toNat ∧ c.toNat ≤ 57) then
    some (Nat.ofDigits 10 ((s.data.map (fun c => c.toNat - 48)).reverse))
  else none

/-! ## Model of JSON documents

`JSON.stringify` / `JSON.parse` are platform builtins; we work at the level of
JSON trees and take the text layer (stringify and parse being mutually inverse
on trees, parse failure on corrupt text) as the builtin contract.  A missing
or unparseable backup file is the `none` case of the `Option Json` field
below. -/
inductive Json where
  | str (s : String)
  | num (n : Int)
  | null
  | arr (elems : List Json)
  | obj (fields : List (String × Json))

/-- Property access `j["k"]` on a parsed JSON value: `none` models the JS
`undefined` result (also for access on a non-object). -/
def Json.getField : Json → String → Option Json
  | .obj fs, k => fs.lookup k
  | _, _ => none

/-- A parsed JSON field value as the JS value the engine later sees. -/
def jsonToJSVal : Option Json → JSVal
  | none => .undefined
  | some (.str s) => .str s
  | some (.num n) => .num n
  | some _ => .other

/-- `JSON.parse` output read back as a `LogEntry` (the source casts the parsed
value to `LogEntry[]` with no re-validation, so fields are whatever the file
holds, `undefined` when missing). -/
def jsonToEntry (j : Json) : LogEntry :=
  { level := jsonToJSVal (j.getField "level")
    message := jsonToJSVal (j.getField "message")
    timestamp := jsonToJSVal (j.getField "timestamp") }

/-- `JSON.stringify` of one field value; `none` means the key is omitted
(stringify drops `undefined`-valued keys).  `.other` abstracts non-primitive
values, whose serialization no claim depends on; it is rendered as `null`. -/
def jsvalToJson : JSVal → Option Json
  | .str s => some (.str s)
  | .num n => some (.num n)
  | .undefined => none
  | .other => some .null

/-- `JSON.stringify` of one `LogEntry`. -/
def entryToJson (e : LogEntry) : Json :=
  Json.obj
    ((match jsvalToJson e.level with
        | some j => [("level", j)]
        | none => [])
      ++ (match jsvalToJson e.message with
        | some j => [("message", j)]
        | none => [])
      ++ (match jsvalToJson e.timestamp with
        | some j => [("timestamp", j)]
        | none => []))

/-! ## Configuration (`BatchTransportOptions` and the constructor) -/

/-- The options record accepted by the constructor.  Optional fields model
TypeScript `?` fields: `none` is an absent field. -/
structure BatchTransportOptions where
  batchSize : Nat
  flushInterval : Nat
  apiUrl : String
  apiKey : Option String := none
  retryLimit : Option Nat := none
  backoffFactor : Option Nat := none
  backupFilePath : Option String := none
  requestTimeout : Option Nat := none
  maxConcurrentBatches : Option Nat := none
  useCompression : Option Bool := none
  initialized : Option Bool := none
  retryInterval : Option Nat := none

/-- JS `opts.x || d` for a numeric option: an absent field and the falsy
value `0` both yield the default. -/
def jsOrNat (v : Option Nat) (d : Nat) : Nat :=
  match v with
  | none => d
  | some n => if n = 0 then d else n

/-- JS `opts.x || d` for a string option: absent and the falsy empty string
yield the default. -/
def jsOrStr (v : Option String) (d : String) : String :=
  match v with
  | none => d
  | some s => if s = "" then d else s

/-- JS `opts.x || false` for a boolean option. -/
def jsOrFalse (v : Option Bool) : Bool :=
  match v with
  | none => false
  | some b => b

/-- The immutable per-instance configuration the constructor computes
(`this.batchSize = opts.batchSize; this.retryLimit = opts.retryLimit || 3;`
and so on). -/
structure Config where
  batchSize : Nat
  flushInterval : Nat
  apiUrl : String
  apiKey : Option String
  retryLimit : Nat
  backoffFactor : Nat
  backupFilePath : String
  requestTimeout : Nat
  maxConcurrentBatches : Nat
  useCompression : Bool
  retryInterval : Nat

/-- The constructor of `BatchTransport` (the configuration part). -/
def mkConfig (opts : BatchTransportOptions) : Config :=
  { batchSize := opts.batchSize
    flushInterval := opts.flushInterval
    apiUrl := opts.apiUrl
    apiKey := opts.apiKey
    retryLimit := jsOrNat opts.retryLimit 3
    backoffFactor := jsOrNat opts.backoffFactor 1000
    backupFilePath := jsOrStr opts.backupFilePath "./unsent-logs.json"
    requestTimeout := jsOrNat opts.requestTimeout 5000
    maxConcurrentBatches := jsOrNat opts.maxConcurrentBatches 3
    useCompression := jsOrFalse opts.useCompression
    retryInterval := jsOrNat opts.retryInterval 10000 }

/-! ## Engine state and the network oracle -/

/-- Outcome of one `axios.post` call, decided by the environment. -/
inductive SendOutcome where
  | success
  | httpStatus (code : Nat)
  | netError
  deriving DecidableEq, Repr

/-- The HTTP statuses `sendLogs` re-throws as `Unauthorized`, `Forbidden` or
`Permanent error` messages (401, 403, 400, 404); the callers classify a caught
error as permanent exactly by those message prefixes. -/
def permanentStatus (c : Nat) : Bool :=
  c == 401 || c == 403 || c == 400 || c == 404

inductive SendResult where
  | ok
  | permanent
  | transient
  deriving DecidableEq, Repr

/-- How the catch blocks of `flushLogs` / `retryFailedLogs` see the outcome of
one `sendLogs` call: success, an error whose message starts with
`Unauthorized` / `Forbidden` / `Permanent error` (exactly the 401/403/400/404
re-throws), or any other error (timeout, connection failure, other statuses),
which they treat as transient. -/
def classifySend : SendOutcome → SendResult
  | .success => .ok
  | .httpStatus c => if permanentStatus c then .permanent else .transient
  | .netError => .transient

/-- Mutable state of one `BatchTransport` instance.  `sent` is the trace of
`axios.post` calls (payload after validation/sanitization, paired with the
outcome); `sleeps` is the trace of backoff sleeps.  The backup file is
`none` when absent or unreadable.  Timer handles are modelled as on/off
flags. -/
structure Engine where
  logQueue : List LogEntry := []
  retryQueue : List LogEntry := []
  activeBatches : Nat := 0
  initialized : Bool := false
  backupWriteInProgress : Bool := false
  flushTimerOn : Bool := false
  retryTimerOn : Bool := false
  backupFile : Option Json := none
  sent : List (List LogEntry × SendOutcome) := []
  sleeps : List Nat := []

/-! ## Record validator / sanitizer -/

/-- `validateLog` of the source: level, message and timestamp are strings and
the timestamp parses as a valid instant
(`new Date(log.timestamp).toString() !== 'Invalid Date'`). -/
def validateLog (e : LogEntry) : Bool :=
  e.level.isStr && e.message.isStr && e.timestamp.isStr &&
    (match e.timestamp with
      | .str s => (dateParse s).isSome
      | _ => false)

/-- `sanitizeLog` of the source: truncate level to 32 and message to 32768
characters (`String(x).slice(0, n)`; we count characters where JS counts
UTF-16 units, a difference no claim depends on), and normalize the timestamp
by reparsing and re-rendering it (`new Date(ts).toISOString()`).  The
fall-through branches for an unparseable or non-string timestamp are
unreachable in the source, which applies `sanitizeLog` only after
`validateLog`; there the JS call would throw. -/
def sanitizeLog (e : LogEntry) : LogEntry :=
  { level := .str (e.level.jsString.take 32)
    message := .str (e.message.jsString.take 32768)
    timestamp :=
      match e.timestamp with
      | .str s =>
        match dateParse s with
        | some t => .str (toISOString t)
        | none => .str s
      | v => v }

/-! ## Backup store -/

/-- `loadBackupLogsFromFile`: read and parse the backup file; a missing or
unparseable file yields `[]`.  The source returns the parsed value cast to
`LogEntry[]`; parsed non-array content would break the callers” array
operations and is modelled as `[]` (no claim involves it). -/
def loadBackupLogsFromFile (st : Engine) : List LogEntry :=
  match st.backupFile with
  | some (.arr xs) => xs.map jsonToEntry
  | _ => []

/-- `backupFailedLog` (variant `part_001`): when the write-lock flag is held,
re-queue the record to the retry queue for a later attempt instead of racing
the writer; otherwise read-modify-write the whole backup file, appending the
record.  The `finally` clause clears the flag on both paths (also on the
early-return path, where it clears the flag of the write it declined to
race).  The `src/src/index.ts` variant instead spin-waits on the flag, which
in the sequential embedding coincides with the `else` branch. -/
def backupFailedLog (e : LogEntry) (st : Engine) : Engine :=
  if st.backupWriteInProgress then
    { st with retryQueue := st.retryQueue ++ [e], backupWriteInProgress := false }
  else
    { st with
        backupFile :=
          some (Json.arr ((loadBackupLogsFromFile st ++ [e]).map entryToJson))
        backupWriteInProgress := false }

/-- `for (const log of batch) await this.backupFailedLog(log)`. -/
def backupBatch (batch : List LogEntry) (st : Engine) : Engine :=
  batch.foldl (fun s e => backupFailedLog e s) st

/-! ## Flush scheduler and sender

`flushLogs` is split at its one suspension point (`await this.sendLogs`):
`flushBegin` is the synchronous prefix up to and including the
`activeBatches++` increment, returning the validated batch handed to the
sender (or `none` when the method returned early); `flushEnd` is the
continuation holding the catch/finally blocks.  `flushLogs` is their
sequential composition, the whole call run atomically. -/

/-- The prefix of `flushLogs` (variant `part_001`, identical in
`src/src/index.ts`): return early when the queue is empty or the in-flight
counter has reached the cap; otherwise splice off a prefix of size
`min(batchSize, queueLength)`, filter it through `validateLog` and map
`sanitizeLog` over it; return early when nothing valid remains; otherwise
increment the in-flight counter and hand the batch to the sender. -/
def flushBegin (cfg : Config) (st : Engine) : Engine × Option (List LogEntry) :=
  if st.logQueue.length = 0 ∨ st.activeBatches ≥ cfg.maxConcurrentBatches then
    (st, none)
  else
    let n := min cfg.batchSize st.logQueue.length
    let logsToSend := st.logQueue.take n
    let validatedLogs := (logsToSend.filter validateLog).map sanitizeLog
    if validatedLogs.length = 0 then
      ({ st with logQueue := st.logQueue.drop n }, none)
    else
      ({ st with
          logQueue := st.logQueue.drop n
          activeBatches := st.activeBatches + 1 }, some validatedLogs)

/-- The continuation of `flushLogs` after `await this.sendLogs(validatedLogs)`
(variant `part_001`): on success nothing more; on an error classified
permanent (the 401/403/400/404 re-throws of `sendLogs`) back up every record
of the batch individually; on any other error append the whole batch to the
retry queue; in all cases (`finally`) decrement the in-flight counter.  The
`axios.post` call itself is recorded on the `sent` trace.  (In the
`src/src/index.ts` variant the catch block has no permanent branch: every
failure goes to the retry queue.) -/
def flushEnd (o : SendOutcome) (batch : List LogEntry) (st : Engine) : Engine :=
  let st1 := { st with sent := st.sent ++ [(batch, o)] }
  let st2 :=
    match classifySend o with
    | .ok => st1
    | .permanent => backupBatch batch st1
    | .transient => { st1 with retryQueue := st1.retryQueue ++ batch }
  { st2 with activeBatches := st2.activeBatches - 1 }

/-- One whole `flushLogs` call, the outcome of its send decided by `o`. -/
def flushLogs (cfg : Config) (o : SendOutcome) (st : Engine) : Engine :=
  match flushBegin cfg st with
  | (st1, none) => st1
  | (st1, some batch) => flushEnd o batch st1

/-! ## Enqueue -/

/-- The raw `info` record handed to `log` by the host framework (`any`-typed;
arbitrary further fields are never read by the engine, so only the three the
engine can touch are modelled; `timestamp` is carried to state that `log`
ignores it). -/
structure RawInfo where
  level : JSVal
  message : JSVal
  timestamp : JSVal := .undefined

/-- The `LogEntry` the enqueue path constructs at instant `now`: level and
message copied from `info`, timestamp freshly generated by
`new Date().toISOString()`. -/
def mkLogEntry (info : RawInfo) (now : Nat) : LogEntry :=
  { level := info.level
    message := info.message
    timestamp := .str (toISOString now) }

/-- `log(info, callback)` at instant `now`: append the constructed entry to
the ingestion queue, then, when the engine is initialized and the queue has
reached `batchSize`, fire `flushLogs` (whose send outcome is `o`).  The
completion callback is invoked after enqueueing regardless and is not
modelled. -/
def log (cfg : Config) (info : RawInfo) (now : Nat) (o : SendOutcome)
    (st : Engine) : Engine :=
  let st1 := { st with logQueue := st.logQueue ++ [mkLogEntry info now] }
  if st1.initialized ∧ st1.logQueue.length ≥ cfg.batchSize then
    flushLogs cfg o st1
  else st1

/-! ## Retry engine -/

/-- Contiguous chunks of size `n` taken from the front of `l`, mirroring the
loop `for (let i = 0; i < logsToRetry.length; i += batchSize)` with
`logsToRetry.slice(i, i + batchSize)`.  For `n = 0` that source loop does not
terminate; the `n = 0` branch here is an arbitrary total completion and every
chunking theorem assumes `0 < n`. -/
def chunksOf (n : Nat) (l : List (LogEntry)) : List (List LogEntry) :=
  match l with
  | [] => []
  | x :: xs =>
    if n = 0 then [x :: xs]
    else (x :: xs).take n :: chunksOf n ((x :: xs).drop n)
termination_by l.length
decreasing_by
  simp only [List.length_drop, List.length_cons]
  omega

/-- The attempt loop of `retryFailedLogs` for one chunk
(`for (let attempt = 0; attempt < this.retryLimit; attempt++)`): before each
attempt sleep `backoffFactor * 2 ^ attempt` (recorded on the `sleeps` trace),
then send the chunk (outcome `o attempt`, recorded on the `sent` trace).
Success breaks with `success = true`; an error classified permanent backs up
every record of the chunk and breaks with `success = true` (“treat as success
for this batch, as it is backed up and will not be retried”); any other error
falls through to the next attempt.  `attempt` is the loop counter and `fuel`
the remaining iterations, `retryLimit - attempt`. -/
def retryAttempts (cfg : Config) (o : Nat → SendOutcome)
    (batch : List LogEntry) : Nat → Nat → Engine → Engine × Bool
  | _, 0, st => (st, false)
  | attempt, fuel + 1, st =>
    let st1 := { st with sleeps := st.sleeps ++ [cfg.backoffFactor * 2 ^ attempt] }
    let st2 := { st1 with sent := st1.sent ++ [(batch, o attempt)] }
    match classifySend (o attempt) with
    | .ok => (st2, true)
    | .permanent => (backupBatch batch st2, true)
    | .transient => retryAttempts cfg o batch (attempt + 1) fuel st2

/-- Processing of one chunk: run the attempt loop; when it ends without
success (retry limit exhausted), back up every record of the chunk. -/
def retryChunk (cfg : Config) (o : Nat → SendOutcome)
    (batch : List LogEntry) (st : Engine) : Engine :=
  match retryAttempts cfg o batch 0 cfg.retryLimit st with
  | (st1, true) => st1
  | (st1, false) => backupBatch batch st1

/-- The chunk loop of `retryFailedLogs`: process the chunks sequentially,
`i` counting chunks (the source counts records, `i / batchSize` here). -/
def retryLoop (cfg : Config) (o : Nat → Nat → SendOutcome) :
    Nat → List (List LogEntry) → Engine → Engine
  | _, [], st => st
  | i, c :: cs, st => retryLoop cfg o (i + 1) cs (retryChunk cfg (o i) c st)

/-- `retryFailedLogs` (variant `part_001`, identical in `src/src/index.ts`):
return early when the retry queue is empty; otherwise snapshot it, clear it,
re-chunk the snapshot into batches of `batchSize` and process the chunks
sequentially.  `o i a` is the outcome of attempt `a` on chunk `i`. -/
def retryFailedLogs (cfg : Config) (o : Nat → Nat → SendOutcome)
    (st : Engine) : Engine :=
  if st.retryQueue.length = 0 then st
  else
    retryLoop cfg o 0 (chunksOf cfg.batchSize st.retryQueue)
      { st with retryQueue := [] }

/-! ## Lifecycle controller -/

/-- `loadBackupLogs` (variant `part_001`): load the backup record set and
append it to the ingestion queue; when it was non-empty, truncate the backup
file to the empty array.  (The `src/src/index.ts` variant appends without
truncating.) -/
def loadBackupLogs (st : Engine) : Engine :=
  let backupLogs := loadBackupLogsFromFile st
  if backupLogs.length > 0 then
    { st with
        logQueue := st.logQueue ++ backupLogs
        backupFile := some (.arr []) }
  else st

/-- `init` (variant `part_001`): on an uninitialized engine, load the backup
record set into the ingestion queue, mark the engine initialized, and start
the flush and retry timers; on an initialized engine, nothing.  (In the
`src/src/index.ts` variant the flush timer is instead started by the
constructor and `init` neither truncates the file nor starts timers.) -/
def init (st : Engine) : Engine :=
  if st.initialized then st
  else
    let st1 := loadBackupLogs st
    { st1 with initialized := true, flushTimerOn := true, retryTimerOn := true }

/-- `close` (variant `part_001`): clear both timers, wait until the in-flight
counter reaches zero (`while (activeBatches > 0) await sleep(50)` — in the
sequential embedding no concurrent task can lower the counter, so the wait
terminates exactly when the counter is already zero, which `close` theorems
take as a hypothesis), then run one final `flushLogs` and one final
`retryFailedLogs`. -/
def close (cfg : Config) (o : SendOutcome) (oRetry : Nat → Nat → SendOutcome)
    (st : Engine) : Engine :=
  let st1 := { st with flushTimerOn := false, retryTimerOn := false }
  let st2 := flushLogs cfg o st1
  retryFailedLogs cfg oRetry st2

/-- The state the constructor builds (variant `part_001`): empty queues, zero
in-flight batches, timers off (started only by `init`), the `initialized`
flag from `opts.initialized || false`.  The backup file is whatever is on
disk at the given path, a parameter here. -/
def mkEngine (opts : BatchTransportOptions) (file : Option Json) : Engine :=
  { initialized := jsOrFalse opts.initialized, backupFile := file }

/-! ## Derived observation functions used to state the claims -/

/-- Number of send attempts the retry attempt loop performs when attempt `a`
onward is governed by oracle `oc` with `fuel` iterations left: attempts are
consumed until the first outcome not classified transient, the retry limit
capping the count. -/
def attemptsUsed (oc : Nat → SendOutcome) : Nat → Nat → Nat
  | _, 0 => 0
  | a, fuel + 1 =>
    match classifySend (oc a) with
    | .transient => 1 + attemptsUsed oc (a + 1) fuel
    | _ => 1

/-- How one chunk resolves under oracle `oc` with `fuel` attempts left:
`.ok` when a send succeeds before a permanent error, `.permanent` when a
permanent error strikes first, `.transient` when the limit is exhausted with
every attempt failing transiently. -/
def chunkOutcome (oc : Nat → SendOutcome) : Nat → Nat → SendResult
  | _, 0 => .transient
  | a, fuel + 1 =>
    match classifySend (oc a) with
    | .transient => chunkOutcome oc (a + 1) fuel
    | r => r

/-- A raw record whose level and message are strings short enough that
`sanitizeLog` leaves them unchanged (level within 32, message within 32768
characters): the "valid records" of the size-trigger claim. -/
def goodInfo (i : RawInfo) : Bool :=
  (match i.level with
    | .str l => l.length ≤ 32
    | _ => false) &&
  (match i.message with
    | .str m => m.length ≤ 32768
    | _ => false)

/-- A sequence of `log` calls, each given by its raw record and its instant;
`o` decides every send such a call may fire. -/
def logMany (cfg : Config) (items : List (RawInfo × Nat)) (o : SendOutcome)
    (st : Engine) : Engine :=
  items.foldl (fun s p => log cfg p.1 p.2 o s) st

/-! ## Concrete fixtures used by witnesses and counterexamples -/

/-- A typical configuration (documented defaults, batch size 2). -/
def cfgW : Config :=
  { batchSize := 2
    flushInterval := 1000
    apiUrl := "https://example.com/api/logs"
    apiKey := none
    retryLimit := 3
    backoffFactor := 1000
    backupFilePath := "./unsent-logs.json"
    requestTimeout := 5000
    maxConcurrentBatches := 3
    useCompression := false
    retryInterval := 10000 }

/-- The same configuration with batch size 1. -/
def cfgW1 : Config :=
  { cfgW with batchSize := 1 }

def entryA : LogEntry :=
  { level := .str "info", message := .str "first", timestamp := .str (toISOString 0) }

def entryB : LogEntry :=
  { level := .str "info", message := .str "second", timestamp := .str (toISOString 0) }

def infoA : RawInfo :=
  { level := .str "info", message := .str "first" }

def infoB : RawInfo :=
  { level := .str "info", message := .str "second", timestamp := .str "ignored" }

/-- A fresh engine with every field at its initial value. -/
def engine0 : Engine := {}

/-- An initialized engine holding two records. -/
def stTwo : Engine :=
  { logQueue := [entryA, entryB], initialized := true }

/-- An engine whose retry queue holds one record. -/
def stRetryA : Engine :=
  { retryQueue := [entryA] }

/-- An engine whose retry queue holds two records. -/
def stRetryAB : Engine :=
  { retryQueue := [entryA, entryB] }

/-- An uninitialized engine whose backup file holds one record. -/
def stBackupA : Engine :=
  { backupFile := some (Json.arr [entryToJson entryA]) }

/-- Options supplying the falsy value 0 for every defaulted numeric field. -/
def optsZero : BatchTransportOptions :=
  { batchSize := 2
    flushInterval := 1000
    apiUrl := "https://example.com/api/logs"
    retryLimit := some 0
    backoffFactor := some 0
    requestTimeout := some 0
    maxConcurrentBatches := some 0 }

/-- An engine that has been initialized and nothing else. -/
def engineInit : Engine := { initialized := true }

/-- Like `infoB` but carrying a different input timestamp. -/
def infoB2 : RawInfo :=
  { level := .str "info"
    message := .str "second"
    timestamp := .str "a completely different timestamp" }

/-- `stTwo` with both timers stopped, as at the start of `close`. -/
def stTwoClosed : Engine :=
  { stTwo with flushTimerOn := false, retryTimerOn := false }

/-! # Theorems

General lemmas about the embedding first, then one theorem per claim
(with its witness or counterexample). -/

theorem digitChar_toNat {d : Nat} (hd : d < 10) :
    (Nat.digitChar d).toNat = 48 + d := by
  interval_cases d <;> rfl

/-- The `Date` model round-trips: the canonical text parses back to the
instant it renders. -/
theorem dateParse_toISOString (t : Nat) : dateParse (toISOString t) = some t := by
  by_cases h0 : t = 0
  · subst h0
    decide
  · have hne : Nat.digits 10 t ≠ [] := Nat.digits_ne_nil_iff_ne_zero.mpr h0
    have hlt : ∀ d ∈ Nat.digits 10 t, d < 10 := fun d hd =>
      Nat.digits_lt_base (by norm_num) hd
    unfold dateParse toISOString natChars
    simp only [h0, ite_false]
    have hall :
        (((Nat.digits 10 t).map Nat.digitChar).reverse).all
          (fun c => 48 ≤ c.toNat ∧ c.toNat ≤ 57) = true := by
      rw [List.all_eq_true]
      intro c hc
      rw [List.mem_reverse, List.mem_map] at hc
      obtain ⟨d, hd, rfl⟩ := hc
      have h1 := digitChar_toNat (hlt d hd)
      have h2 := hlt d hd
      simp only [h1, decide_eq_true_eq]
      omega
    have hnonnil : (((Nat.digits 10 t).map Nat.digitChar).reverse) ≠ [] := by
      simp [hne]
    rw [if_pos ⟨hnonnil, hall⟩]
    congr 1
    have hmapmap :
        ((((Nat.digits 10 t).map Nat.digitChar).reverse).map
            (fun c => c.toNat - 48)).reverse
          = Nat.digits 10 t := by
      rw [← List.map_reverse, List.reverse_reverse, List.map_map]
      conv_rhs => rw [← List.map_id (Nat.digits 10 t)]
      apply List.map_congr_left
      intro d hd
      have h1 := digitChar_toNat (hlt d hd)
      simp [Function.comp, h1]
    rw [hmapmap, Nat.ofDigits_digits]

theorem string_take_of_le (s : String) (n : Nat) (h : s.length ≤ n) :
    s.take n = s := by
  rw [String.take_eq]
  cases s with
  | mk data => simp_all [String.length, List.take_of_length_le]

/-- The `LogEntry` JSON codec round-trips on every entry. -/
theorem jsonToEntry_entryToJson (e : LogEntry) : jsonToEntry (entryToJson e) = e := by
  obtain ⟨l, m, t⟩ := e
  cases l <;> cases m <;> cases t <;>
    simp [entryToJson, jsonToEntry, jsvalToJson, jsonToJSVal, Json.getField,
      List.lookup]

theorem loadBackup_of_file (st : Engine) (xs : List LogEntry)
    (h : st.backupFile = some (.arr (xs.map entryToJson))) :
    loadBackupLogsFromFile st = xs := by
  simp only [loadBackupLogsFromFile, h, List.map_map]
  have : ∀ a ∈ xs, (jsonToEntry ∘ entryToJson) a = id a := fun a _ =>
    jsonToEntry_entryToJson a
  rw [List.map_congr_left this, List.map_id]

/-- `backupFailedLog` without a concurrent writer: the backup file gains the
record at the end, every other component of the state is unchanged. -/
theorem backupFailedLog_spec (e : LogEntry) (st : Engine)
    (h : st.backupWriteInProgress = false) :
    backupFailedLog e st
      = { st with
            backupFile :=
              some (.arr ((loadBackupLogsFromFile st ++ [e]).map entryToJson))
            backupWriteInProgress := false } := by
  simp [backupFailedLog, h]

/-- Components of the state `backupFailedLog` never touches, whichever branch
it takes. -/
theorem backupFailedLog_frame (e : LogEntry) (st : Engine) :
    (backupFailedLog e st).sent = st.sent ∧
    (backupFailedLog e st).sleeps = st.sleeps ∧
    (backupFailedLog e st).logQueue = st.logQueue ∧
    (backupFailedLog e st).activeBatches = st.activeBatches ∧
    (backupFailedLog e st).initialized = st.initialized ∧
    (backupFailedLog e st).flushTimerOn = st.flushTimerOn ∧
    (backupFailedLog e st).retryTimerOn = st.retryTimerOn := by
  unfold backupFailedLog
  by_cases h : st.backupWriteInProgress <;> simp [h]

/-- Components of the state the backup loop never touches. -/
theorem backupBatch_frame (b : List LogEntry) : ∀ st : Engine,
    (backupBatch b st).sent = st.sent ∧
    (backupBatch b st).sleeps = st.sleeps ∧
    (backupBatch b st).logQueue = st.logQueue ∧
    (backupBatch b st).activeBatches = st.activeBatches ∧
    (backupBatch b st).initialized = st.initialized ∧
    (backupBatch b st).flushTimerOn = st.flushTimerOn ∧
    (backupBatch b st).retryTimerOn = st.retryTimerOn := by
  induction b with
  | nil => intro st; exact ⟨rfl, rfl, rfl, rfl, rfl, rfl, rfl⟩
  | cons e b ih =>
    intro st
    have h1 := backupFailedLog_frame e st
    have h2 := ih (backupFailedLog e st)
    simp only [backupBatch, List.foldl_cons] at *
    exact ⟨h2.1.trans h1.1, h2.2.1.trans h1.2.1, h2.2.2.1.trans h1.2.2.1,
      h2.2.2.2.1.trans h1.2.2.2.1, h2.2.2.2.2.1.trans h1.2.2.2.2.1,
      h2.2.2.2.2.2.1.trans h1.2.2.2.2.2.1, h2.2.2.2.2.2.2.trans h1.2.2.2.2.2.2⟩

/-- The backup loop without a concurrent writer: the retry queue is untouched
and the backup record set gains exactly the batch, in order. -/
theorem backupBatch_spec (b : List LogEntry) : ∀ st : Engine,
    st.backupWriteInProgress = false →
    (backupBatch b st).retryQueue = st.retryQueue ∧
    (backupBatch b st).backupWriteInProgress = false ∧
    loadBackupLogsFromFile (backupBatch b st)
      = loadBackupLogsFromFile st ++ b := by
  induction b with
  | nil =>
    intro st h
    exact ⟨rfl, h, by simp [backupBatch]⟩
  | cons e b ih =>
    intro st h
    have hstep := backupFailedLog_spec e st h
    have hload1 : loadBackupLogsFromFile (backupFailedLog e st)
        = loadBackupLogsFromFile st ++ [e] := by
      rw [hstep]
      exact loadBackup_of_file _ _ rfl
    have hflag1 : (backupFailedLog e st).backupWriteInProgress = false := by
      rw [hstep]
    have hrq1 : (backupFailedLog e st).retryQueue = st.retryQueue := by
      rw [hstep]
    have := ih (backupFailedLog e st) hflag1
    simp only [backupBatch, List.foldl_cons] at *
    refine ⟨this.1.trans hrq1, this.2.1, ?_⟩
    rw [this.2.2, hload1, List.append_assoc]
    rfl

/-- What the continuation of `flushLogs` after the send always does: record
the one network call, leave the ingestion queue alone, and decrement the
in-flight counter. -/
theorem flushEnd_frame (o : SendOutcome) (b : List LogEntry) (st : Engine) :
    (flushEnd o b st).sent = st.sent ++ [(b, o)] ∧
    (flushEnd o b st).logQueue = st.logQueue ∧
    (flushEnd o b st).sleeps = st.sleeps ∧
    (flushEnd o b st).activeBatches = st.activeBatches - 1 ∧
    (flushEnd o b st).initialized = st.initialized ∧
    (flushEnd o b st).flushTimerOn = st.flushTimerOn ∧
    (flushEnd o b st).retryTimerOn = st.retryTimerOn := by
  cases hc : classifySend o with
  | ok => simp [flushEnd, hc]
  | permanent =>
    have hf := backupBatch_frame b { st with sent := st.sent ++ [(b, o)] }
    simp only [flushEnd, hc]
    exact ⟨hf.1, hf.2.2.1, hf.2.1, by rw [hf.2.2.2.1], hf.2.2.2.2.1,
      hf.2.2.2.2.2.1, hf.2.2.2.2.2.2⟩
  | transient => simp [flushEnd, hc]


theorem flushBegin_noop (cfg : Config) (st : Engine)
    (h : st.logQueue.length = 0 ∨ st.activeBatches ≥ cfg.maxConcurrentBatches) :
    flushBegin cfg st = (st, none) := by
  unfold flushBegin
  rw [if_pos h]

theorem flushBegin_allInvalid (cfg : Config) (st : Engine)
    (h : ¬(st.logQueue.length = 0 ∨ st.activeBatches ≥ cfg.maxConcurrentBatches))
    (hb : (((st.logQueue.take (min cfg.batchSize st.logQueue.length)).filter
        validateLog).map sanitizeLog).length = 0) :
    flushBegin cfg st
      = ({ st with
            logQueue := st.logQueue.drop (min cfg.batchSize st.logQueue.length) },
          none) := by
  unfold flushBegin
  rw [if_neg h]
  dsimp only
  rw [if_pos hb]

theorem flushBegin_batch (cfg : Config) (st : Engine)
    (h : ¬(st.logQueue.length = 0 ∨ st.activeBatches ≥ cfg.maxConcurrentBatches))
    (hb : ¬(((st.logQueue.take (min cfg.batchSize st.logQueue.length)).filter
        validateLog).map sanitizeLog).length = 0) :
    flushBegin cfg st
      = ({ st with
            logQueue := st.logQueue.drop (min cfg.batchSize st.logQueue.length)
            activeBatches := st.activeBatches + 1 },
          some (((st.logQueue.take (min cfg.batchSize st.logQueue.length)).filter
            validateLog).map sanitizeLog)) := by
  unfold flushBegin
  rw [if_neg h]
  dsimp only
  rw [if_neg hb]

/-- C6: `flushLogs` is a no-op when the ingestion queue is empty or the
in-flight counter has reached the concurrency cap; otherwise it removes
exactly the prefix of size `min(batchSize, queueLength)` from the queue,
validates and sanitizes it, performs no network call when no valid record
remains after filtering, and otherwise performs the one send with the
in-flight counter incremented before the send (`flushBegin`, the half of the
call before the suspension) and decremented on completion (net unchanged
across the whole call). -/
theorem flushLogs_behavior (cfg : Config) (o : SendOutcome) (st : Engine) :
    ((st.logQueue = [] ∨ cfg.maxConcurrentBatches ≤ st.activeBatches) →
      flushLogs cfg o st = st) ∧
    (st.logQueue ≠ [] → st.activeBatches < cfg.maxConcurrentBatches →
      ((flushLogs cfg o st).logQueue
          = st.logQueue.drop (min cfg.batchSize st.logQueue.length) ∧
        (((st.logQueue.take (min cfg.batchSize st.logQueue.length)).filter
              validateLog).map sanitizeLog = [] →
          flushLogs cfg o st
            = { st with
                  logQueue :=
                    st.logQueue.drop (min cfg.batchSize st.logQueue.length) }) ∧
        (((st.logQueue.take (min cfg.batchSize st.logQueue.length)).filter
              validateLog).map sanitizeLog ≠ [] →
          (flushLogs cfg o st).sent
              = st.sent
                ++ [(((st.logQueue.take
                        (min cfg.batchSize st.logQueue.length)).filter
                      validateLog).map sanitizeLog, o)] ∧
          (flushBegin cfg st).1.activeBatches = st.activeBatches + 1 ∧
          (flushLogs cfg o st).activeBatches = st.activeBatches))) := by
  constructor
  · intro h
    have hcond : st.logQueue.length = 0 ∨ st.activeBatches ≥ cfg.maxConcurrentBatches := by
      rcases h with h | h
      · exact Or.inl (by simp [h])
      · exact Or.inr h
    unfold flushLogs
    rw [flushBegin_noop cfg st hcond]
  · intro hq hact
    have hcond : ¬(st.logQueue.length = 0 ∨ st.activeBatches ≥ cfg.maxConcurrentBatches) := by
      push_neg
      exact ⟨by simpa using hq, hact⟩
    by_cases hb :
        ((st.logQueue.take (min cfg.batchSize st.logQueue.length)).filter
            validateLog).map sanitizeLog = []
    · have hlen0 :
          (((st.logQueue.take (min cfg.batchSize st.logQueue.length)).filter
              validateLog).map sanitizeLog).length = 0 := by
        simp [hb]
      have hfl : flushLogs cfg o st
          = { st with
                logQueue := st.logQueue.drop (min cfg.batchSize st.logQueue.length) } := by
        unfold flushLogs
        rw [flushBegin_allInvalid cfg st hcond hlen0]
      exact ⟨by rw [hfl], fun _ => hfl, fun hne => absurd hb hne⟩
    · have hlen0 :
          ¬(((st.logQueue.take (min cfg.batchSize st.logQueue.length)).filter
              validateLog).map sanitizeLog).length = 0 := by
        simpa [List.length_eq_zero] using hb
      have hfl : flushLogs cfg o st
          = flushEnd o
              (((st.logQueue.take (min cfg.batchSize st.logQueue.length)).filter
                  validateLog).map sanitizeLog)
              { st with
                  logQueue := st.logQueue.drop (min cfg.batchSize st.logQueue.length)
                  activeBatches := st.activeBatches + 1 } := by
        unfold flushLogs
        rw [flushBegin_batch cfg st hcond hlen0]
      have hfe := flushEnd_frame o
        (((st.logQueue.take (min cfg.batchSize st.logQueue.length)).filter
            validateLog).map sanitizeLog)
        { st with
            logQueue := st.logQueue.drop (min cfg.batchSize st.logQueue.length)
            activeBatches := st.activeBatches + 1 }
      refine ⟨?_, fun hcontra => absurd hcontra hb, fun _ => ⟨?_, ?_, ?_⟩⟩
      · rw [hfl]
        exact hfe.2.1
      · rw [hfl]
        exact hfe.1
      · rw [flushBegin_batch cfg st hcond hlen0]
      · rw [hfl]
        have h2 := hfe.2.2.2.1
        simpa using h2

theorem load_congr (st st2 : Engine) (h : st.backupFile = st2.backupFile) :
    loadBackupLogsFromFile st = loadBackupLogsFromFile st2 := by
  unfold loadBackupLogsFromFile
  rw [h]

/-- C2: the catch block of `flushLogs`.  A failure classified transient
appends the whole batch to the retry queue and writes nothing to the backup
store; a failure classified permanent (HTTP 401, 403, 400 or 404) writes
every record of the batch, in order, to the backup store and appends nothing
to the retry queue. -/
theorem flushEnd_classification (o : SendOutcome) (batch : List LogEntry)
    (st : Engine) (hflag : st.backupWriteInProgress = false) :
    (classifySend o = .transient →
      (flushEnd o batch st).retryQueue = st.retryQueue ++ batch ∧
      loadBackupLogsFromFile (flushEnd o batch st) = loadBackupLogsFromFile st) ∧
    (classifySend o = .permanent →
      (flushEnd o batch st).retryQueue = st.retryQueue ∧
      loadBackupLogsFromFile (flushEnd o batch st)
        = loadBackupLogsFromFile st ++ batch) := by
  cases hc : classifySend o with
  | ok =>
    exact ⟨fun h => by simp at h, fun h => by simp at h⟩
  | transient =>
    refine ⟨fun _ => ?_, fun h => by simp at h⟩
    constructor
    · simp [flushEnd, hc]
    · apply load_congr
      simp [flushEnd, hc]
  | permanent =>
    refine ⟨fun h => by simp at h, fun _ => ?_⟩
    have hflag1 : (Engine.mk st.logQueue st.retryQueue st.activeBatches
        st.initialized false st.flushTimerOn st.retryTimerOn st.backupFile
        (st.sent ++ [(batch, o)]) st.sleeps).backupWriteInProgress = false := rfl
    have hbb := backupBatch_spec batch
      { st with sent := st.sent ++ [(batch, o)] } (by simpa using hflag)
    constructor
    · have : (flushEnd o batch st).retryQueue
          = (backupBatch batch { st with sent := st.sent ++ [(batch, o)] }).retryQueue := by
        simp [flushEnd, hc]
      rw [this, hbb.1]
    · have hl : loadBackupLogsFromFile (flushEnd o batch st)
          = loadBackupLogsFromFile
              (backupBatch batch { st with sent := st.sent ++ [(batch, o)] }) := by
        apply load_congr
        simp [flushEnd, hc]
      rw [hl, hbb.2.2]
      have h2 : loadBackupLogsFromFile { st with sent := st.sent ++ [(batch, o)] }
          = loadBackupLogsFromFile st := load_congr _ _ rfl
      rw [h2]

theorem validateLog_mkLogEntry (i : RawInfo) (t : Nat)
    (hl : i.level.isStr = true) (hm : i.message.isStr = true) :
    validateLog (mkLogEntry i t) = true := by
  cases hlv : i.level <;> cases hmv : i.message <;>
    simp_all [validateLog, mkLogEntry, JSVal.isStr, dateParse_toISOString]

theorem goodInfo_isStr (i : RawInfo) (h : goodInfo i = true) :
    i.level.isStr = true ∧ i.message.isStr = true := by
  unfold goodInfo at h
  cases hl : i.level <;> cases hm : i.message <;>
    simp_all [JSVal.isStr]

theorem sanitizeLog_mkLogEntry (i : RawInfo) (t : Nat) (h : goodInfo i = true) :
    sanitizeLog (mkLogEntry i t) = mkLogEntry i t := by
  unfold goodInfo at h
  cases hl : i.level with
  | str l =>
    cases hm : i.message with
    | str m =>
      rw [hl, hm] at h
      simp only [Bool.and_eq_true, decide_eq_true_eq] at h
      unfold sanitizeLog mkLogEntry
      rw [hl, hm]
      simp only [JSVal.jsString, dateParse_toISOString]
      rw [string_take_of_le l 32 h.1, string_take_of_le m 32768 h.2]
    | num n => rw [hl, hm] at h; simp at h
    | undefined => rw [hl, hm] at h; simp at h
    | other => rw [hl, hm] at h; simp at h
  | num n => rw [hl] at h; simp at h
  | undefined => rw [hl] at h; simp at h
  | other => rw [hl] at h; simp at h

theorem logMany_append (cfg : Config) (o : SendOutcome)
    (l1 l2 : List (RawInfo × Nat)) (st : Engine) :
    logMany cfg (l1 ++ l2) o st = logMany cfg l2 o (logMany cfg l1 o st) := by
  simp [logMany, List.foldl_append]

/-- While the ingestion queue stays below `batchSize`, `log` only appends:
no flush fires, no send happens. -/
theorem logMany_small (cfg : Config) (o : SendOutcome) :
    ∀ (items : List (RawInfo × Nat)) (st : Engine),
    st.logQueue.length + items.length < cfg.batchSize →
    logMany cfg items o st
      = { st with
            logQueue := st.logQueue ++ items.map (fun p => mkLogEntry p.1 p.2) } := by
  intro items
  induction items with
  | nil => intro st _; simp [logMany]
  | cons p items ih =>
    intro st hlen
    have hcond : ¬({ st with logQueue := st.logQueue ++ [mkLogEntry p.1 p.2] }.initialized = true ∧
        ({ st with logQueue := st.logQueue ++ [mkLogEntry p.1 p.2] } : Engine).logQueue.length
          ≥ cfg.batchSize) := by
      intro hcontra
      have := hcontra.2
      simp only [List.length_append, List.length_cons, List.length_nil] at this
      simp only [List.length_cons] at hlen
      omega
    have hstep : log cfg p.1 p.2 o st
        = { st with logQueue := st.logQueue ++ [mkLogEntry p.1 p.2] } := by
      unfold log
      rw [if_neg (by simpa using hcond)]
    have hrest := ih { st with logQueue := st.logQueue ++ [mkLogEntry p.1 p.2] }
      (by simp only [List.length_append, List.length_cons, List.length_nil] at *; omega)
    calc logMany cfg (p :: items) o st
        = logMany cfg items o (log cfg p.1 p.2 o st) := by simp [logMany]
      _ = logMany cfg items o
            { st with logQueue := st.logQueue ++ [mkLogEntry p.1 p.2] } := by rw [hstep]
      _ = { st with logQueue := st.logQueue ++ (p :: items).map (fun p => mkLogEntry p.1 p.2) } := by
            rw [hrest]
            simp

/-- A flush of a full queue of valid, already-canonical records sends the
whole queue as the one batch. -/
theorem flushLogs_full (cfg : Config) (o : SendOutcome) (st : Engine)
    (hbs : 0 < cfg.batchSize)
    (hlen : st.logQueue.length = cfg.batchSize)
    (hact : st.activeBatches < cfg.maxConcurrentBatches)
    (hval : ∀ e ∈ st.logQueue, validateLog e = true)
    (hsan : ∀ e ∈ st.logQueue, sanitizeLog e = e) :
    flushLogs cfg o st
      = flushEnd o st.logQueue
          { st with logQueue := [], activeBatches := st.activeBatches + 1 } := by
  have hmin : min cfg.batchSize st.logQueue.length = st.logQueue.length := by omega
  have htake : st.logQueue.take (min cfg.batchSize st.logQueue.length)
      = st.logQueue := by rw [hmin, List.take_length]
  have hdrop : st.logQueue.drop (min cfg.batchSize st.logQueue.length) = [] := by
    rw [hmin, List.drop_length]
  have hfilter : st.logQueue.filter validateLog = st.logQueue :=
    List.filter_eq_self.mpr (by simpa using hval)
  have hmap : st.logQueue.map sanitizeLog = st.logQueue := by
    have : ∀ e ∈ st.logQueue, sanitizeLog e = id e := fun e he => hsan e he
    rw [List.map_congr_left this, List.map_id]
  have hcond : ¬(st.logQueue.length = 0 ∨ st.activeBatches ≥ cfg.maxConcurrentBatches) := by
    push_neg
    exact ⟨by omega, hact⟩
  have hval_len : ¬(((st.logQueue.take (min cfg.batchSize st.logQueue.length)).filter
      validateLog).map sanitizeLog).length = 0 := by
    rw [htake, hfilter, hmap]
    omega
  unfold flushLogs
  rw [flushBegin_batch cfg st hcond hval_len, htake, hfilter, hmap, hdrop]

/-- C1: on an initialized engine with an empty ingestion queue, enqueueing
fewer than `batchSize` valid records fires no network send; enqueueing the
`batchSize`-th fires exactly one send whose payload is exactly the enqueued
records, in insertion order, leaving the queue empty. -/
theorem log_sizeTrigger (cfg : Config) (o : SendOutcome) (st : Engine)
    (items : List (RawInfo × Nat))
    (hbs : 0 < cfg.batchSize)
    (hinit : st.initialized = true)
    (hq : st.logQueue = [])
    (hact : st.activeBatches < cfg.maxConcurrentBatches)
    (hlen : items.length = cfg.batchSize)
    (hgood : ∀ p ∈ items, goodInfo p.1 = true) :
    (∀ k < cfg.batchSize, (logMany cfg (items.take k) o st).sent = st.sent) ∧
    (logMany cfg items o st).sent
      = st.sent ++ [(items.map (fun p => mkLogEntry p.1 p.2), o)] ∧
    (logMany cfg items o st).logQueue = [] := by
  constructor
  · intro k hk
    have h1 := logMany_small cfg o (items.take k) st (by
      rw [hq]
      simp only [List.length_nil, List.length_take, hlen, Nat.zero_add]
      omega)
    rw [h1]
  · have hne : items ≠ [] := by
      intro hcontra
      rw [hcontra] at hlen
      simp at hlen
      omega
    have hsplit : logMany cfg items o st
        = log cfg (items.getLast hne).1 (items.getLast hne).2 o
            (logMany cfg items.dropLast o st) := by
      conv_lhs => rw [← List.dropLast_append_getLast hne]
      rw [logMany_append]
      simp [logMany]
    have hsmall := logMany_small cfg o items.dropLast st (by
      rw [hq]
      simp only [List.length_nil, List.length_dropLast, hlen, Nat.zero_add]
      omega)
    rw [hq] at hsmall
    simp only [List.nil_append] at hsmall
    set E1 := items.dropLast.map (fun p => mkLogEntry p.1 p.2) with hE1
    set eL := mkLogEntry (items.getLast hne).1 (items.getLast hne).2 with heL
    have hfullE : E1 ++ [eL] = items.map (fun p => mkLogEntry p.1 p.2) := by
      rw [hE1, heL]
      rw [show [mkLogEntry (items.getLast hne).1 (items.getLast hne).2]
          = [items.getLast hne].map (fun p => mkLogEntry p.1 p.2) from rfl]
      rw [← List.map_append, List.dropLast_append_getLast hne]
    have hlenE : (E1 ++ [eL]).length = cfg.batchSize := by
      rw [hfullE]
      simpa using hlen
    have hmemE : ∀ e ∈ E1 ++ [eL], ∃ p ∈ items, e = mkLogEntry p.1 p.2 := by
      intro e he
      rw [hfullE] at he
      rw [List.mem_map] at he
      obtain ⟨p, hp, rfl⟩ := he
      exact ⟨p, hp, rfl⟩
    have hvalE : ∀ e ∈ E1 ++ [eL], validateLog e = true := by
      intro e he
      obtain ⟨p, hp, rfl⟩ := hmemE e he
      have hg := hgood p hp
      have hs := goodInfo_isStr p.1 hg
      exact validateLog_mkLogEntry p.1 p.2 hs.1 hs.2
    have hsanE : ∀ e ∈ E1 ++ [eL], sanitizeLog e = e := by
      intro e he
      obtain ⟨p, hp, rfl⟩ := hmemE e he
      exact sanitizeLog_mkLogEntry p.1 p.2 (hgood p hp)
    have hstep : log cfg (items.getLast hne).1 (items.getLast hne).2 o
        { st with logQueue := E1 }
        = flushLogs cfg o { st with logQueue := E1 ++ [eL] } := by
      unfold log
      rw [if_pos]
      constructor
      · exact hinit
      · simp only [List.length_append, List.length_cons, List.length_nil]
        have h1 : E1.length = cfg.batchSize - 1 := by
          rw [hE1]
          simp [List.length_dropLast, hlen]
        omega
    have hflush := flushLogs_full cfg o { st with logQueue := E1 ++ [eL] } hbs
      (by simpa using hlenE) hact (by simpa using hvalE) (by simpa using hsanE)
    have hfe := flushEnd_frame o (E1 ++ [eL])
      { st with logQueue := [], activeBatches := st.activeBatches + 1 }
    rw [hsplit, hsmall, hstep, hflush]
    constructor
    · rw [hfe.1, hfullE]
    · exact hfe.2.1

/-- C9: defaulting in the constructor is by JS falsiness (`opts.x || d`), so
the explicit value `0` for `retryLimit`, `backoffFactor`, `requestTimeout` or
`maxConcurrentBatches` yields the documented default rather than `0`; in
particular no configuration can make `retryLimit` zero. -/
theorem mkConfig_falsy_defaults (opts : BatchTransportOptions) :
    (opts.retryLimit = some 0 → (mkConfig opts).retryLimit = 3) ∧
    (opts.backoffFactor = some 0 → (mkConfig opts).backoffFactor = 1000) ∧
    (opts.requestTimeout = some 0 → (mkConfig opts).requestTimeout = 5000) ∧
    (opts.maxConcurrentBatches = some 0 →
      (mkConfig opts).maxConcurrentBatches = 3) ∧
    0 < (mkConfig opts).retryLimit := by
  refine ⟨fun h => ?_, fun h => ?_, fun h => ?_, fun h => ?_, ?_⟩
  · simp [mkConfig, jsOrNat, h]
  · simp [mkConfig, jsOrNat, h]
  · simp [mkConfig, jsOrNat, h]
  · simp [mkConfig, jsOrNat, h]
  · unfold mkConfig jsOrNat
    cases hr : opts.retryLimit with
    | none => norm_num
    | some n =>
      by_cases hn : n = 0
      · simp [hn]
      · simp [hn]
        omega

/-- C10: the enqueue path stamps the stored entry with the freshly generated
current-instant timestamp and ignores any timestamp on the input record; the
generated timestamp is a string and parses back to the instant, so the
timestamp conjuncts of `validateLog` always hold on entries built by `log`,
and such an entry passes validation in full whenever its level and message
are strings. -/
theorem log_fresh_timestamp (i : RawInfo) (t : Nat) :
    (mkLogEntry i t).timestamp = .str (toISOString t) ∧
    (∀ i2 : RawInfo, i2.level = i.level → i2.message = i.message →
      mkLogEntry i2 t = mkLogEntry i t) ∧
    (mkLogEntry i t).timestamp.isStr = true ∧
    dateParse (toISOString t) = some t ∧
    (i.level.isStr = true → i.message.isStr = true →
      validateLog (mkLogEntry i t) = true) := by
  refine ⟨rfl, ?_, rfl, dateParse_toISOString t, ?_⟩
  · intro i2 h2l h2m
    unfold mkLogEntry
    rw [h2l, h2m]
  · intro hl hm
    exact validateLog_mkLogEntry i t hl hm

/-- C4: `init` is idempotent; on its first call it appends the backup record
set to the ingestion queue and leaves the backup record set empty, marks the
engine initialized and turns both timers on; a second call changes nothing;
and before initialization the size threshold never fires a flush (a `log`
call is a pure append). -/
theorem init_behavior (st : Engine) :
    init (init st) = init st ∧
    (st.initialized = true → init st = st) ∧
    (st.initialized = false →
      (init st).logQueue = st.logQueue ++ loadBackupLogsFromFile st ∧
      loadBackupLogsFromFile (init st) = [] ∧
      (init st).initialized = true ∧
      (init st).flushTimerOn = true ∧
      (init st).retryTimerOn = true) ∧
    (∀ (cfg : Config) (info : RawInfo) (now : Nat) (o : SendOutcome),
      st.initialized = false →
      log cfg info now o st
        = { st with logQueue := st.logQueue ++ [mkLogEntry info now] }) := by
  have hsnd : ∀ s : Engine, s.initialized = true → init s = s := by
    intro s hs
    unfold init
    rw [if_pos hs]
  refine ⟨?_, hsnd st, ?_, ?_⟩
  · by_cases h : st.initialized = true
    · rw [hsnd st h]
      exact hsnd st h
    · have h1 : init st
          = { loadBackupLogs st with
                initialized := true, flushTimerOn := true, retryTimerOn := true } := by
        unfold init
        rw [if_neg h]
      rw [h1]
      exact hsnd _ rfl
  · intro h
    have h1 : init st
        = { loadBackupLogs st with
              initialized := true, flushTimerOn := true, retryTimerOn := true } := by
      unfold init
      rw [if_neg (by simp [h])]
    by_cases hb : (loadBackupLogsFromFile st).length > 0
    · have h2 : loadBackupLogs st
          = { st with
                logQueue := st.logQueue ++ loadBackupLogsFromFile st
                backupFile := some (.arr []) } := by
        unfold loadBackupLogs
        rw [if_pos hb]
      rw [h1, h2]
      refine ⟨rfl, ?_, rfl, rfl, rfl⟩
      exact loadBackup_of_file _ [] (by simp)
    · have hload : loadBackupLogsFromFile st = [] :=
        List.length_eq_zero.mp (by omega)
      have h2 : loadBackupLogs st = st := by
        unfold loadBackupLogs
        rw [if_neg hb]
      rw [h1, h2]
      refine ⟨by rw [hload, List.append_nil], ?_, rfl, rfl, rfl⟩
      rw [← hload]
      exact load_congr _ _ rfl
  · intro cfg info now o h
    unfold log
    rw [if_neg (by simp [h])]

/-- C8: writing any sequence of records to the backup store one by one via
`backupFailedLog`, starting from an absent or empty backup file with no
concurrent writer, and then reading it back with `loadBackupLogsFromFile`
returns exactly that sequence: the same records, all field values identical,
in the same order. -/
theorem backup_roundTrip (es : List LogEntry) (st : Engine)
    (hflag : st.backupWriteInProgress = false)
    (hfile : st.backupFile = none ∨ st.backupFile = some (.arr [])) :
    loadBackupLogsFromFile
        (es.foldl (fun s e => backupFailedLog e s) st) = es := by
  have h0 : loadBackupLogsFromFile st = [] := by
    rcases hfile with h | h <;> simp [loadBackupLogsFromFile, h]
  have hb := (backupBatch_spec es st hflag).2.2
  unfold backupBatch at hb
  rw [hb, h0, List.nil_append]

theorem classifySend_ok_iff (o : SendOutcome) :
    classifySend o = .ok ↔ o = .success := by
  cases o with
  | success => simp [classifySend]
  | httpStatus c =>
    by_cases h : permanentStatus c = true <;> simp [classifySend, h]
  | netError => simp [classifySend]

/-- Components of the state the retry attempt loop never touches. -/
theorem retryAttempts_frame (cfg : Config) (oc : Nat → SendOutcome)
    (batch : List LogEntry) :
    ∀ (fuel a : Nat) (st : Engine), st.backupWriteInProgress = false →
    (retryAttempts cfg oc batch a fuel st).1.retryQueue = st.retryQueue ∧
    (retryAttempts cfg oc batch a fuel st).1.logQueue = st.logQueue ∧
    (retryAttempts cfg oc batch a fuel st).1.activeBatches = st.activeBatches ∧
    (retryAttempts cfg oc batch a fuel st).1.initialized = st.initialized ∧
    (retryAttempts cfg oc batch a fuel st).1.flushTimerOn = st.flushTimerOn ∧
    (retryAttempts cfg oc batch a fuel st).1.retryTimerOn = st.retryTimerOn ∧
    (retryAttempts cfg oc batch a fuel st).1.backupWriteInProgress = false := by
  intro fuel
  induction fuel with
  | zero =>
    intro a st h
    exact ⟨rfl, rfl, rfl, rfl, rfl, rfl, h⟩
  | succ fuel ih =>
    intro a st h
    unfold retryAttempts
    cases hc : classifySend (oc a) with
    | ok => exact ⟨rfl, rfl, rfl, rfl, rfl, rfl, h⟩
    | permanent =>
      have hfr := backupBatch_frame batch
        { st with
            sleeps := st.sleeps ++ [cfg.backoffFactor * 2 ^ a]
            sent := st.sent ++ [(batch, oc a)] }
      have hsp := backupBatch_spec batch
        { st with
            sleeps := st.sleeps ++ [cfg.backoffFactor * 2 ^ a]
            sent := st.sent ++ [(batch, oc a)] } (by simpa using h)
      exact ⟨hsp.1, hfr.2.2.1, hfr.2.2.2.1, hfr.2.2.2.2.1, hfr.2.2.2.2.2.1,
        hfr.2.2.2.2.2.2, hsp.2.1⟩
    | transient =>
      exact ih (a + 1)
        { st with
            sleeps := st.sleeps ++ [cfg.backoffFactor * 2 ^ a]
            sent := st.sent ++ [(batch, oc a)] } (by simpa using h)

/-- The traces the retry attempt loop produces: one backoff sleep of
`backoffFactor * 2 ^ i` immediately before each attempt `i`, and one send of
the chunk per attempt, for attempts `a, a+1, ...` up to the first outcome not
classified transient, never more than `fuel` of them. -/
theorem retryAttempts_traces (cfg : Config) (oc : Nat → SendOutcome)
    (batch : List LogEntry) :
    ∀ (fuel a : Nat) (st : Engine),
    (retryAttempts cfg oc batch a fuel st).1.sleeps
        = st.sleeps ++ (List.range' a (attemptsUsed oc a fuel)).map
            (fun i => cfg.backoffFactor * 2 ^ i) ∧
    (retryAttempts cfg oc batch a fuel st).1.sent
        = st.sent ++ (List.range' a (attemptsUsed oc a fuel)).map
            (fun i => (batch, oc i)) ∧
    attemptsUsed oc a fuel ≤ fuel := by
  intro fuel
  induction fuel with
  | zero =>
    intro a st
    simp [retryAttempts, attemptsUsed]
  | succ fuel ih =>
    intro a st
    unfold retryAttempts attemptsUsed
    cases hc : classifySend (oc a) with
    | ok => simp [List.range'_succ]
    | permanent =>
      have hfr := backupBatch_frame batch
        { st with
            sleeps := st.sleeps ++ [cfg.backoffFactor * 2 ^ a]
            sent := st.sent ++ [(batch, oc a)] }
      dsimp only
      refine ⟨?_, ?_, by omega⟩
      · rw [hfr.2.1]
        simp [List.range'_succ]
      · rw [hfr.1]
        simp [List.range'_succ]
    | transient =>
      have hrec := ih (a + 1)
        { st with
            sleeps := st.sleeps ++ [cfg.backoffFactor * 2 ^ a]
            sent := st.sent ++ [(batch, oc a)] }
      dsimp only
      refine ⟨?_, ?_, by have := hrec.2.2; omega⟩
      · rw [hrec.1]
        simp only [Nat.add_comm 1 (attemptsUsed oc (a + 1) fuel)]
        rw [List.range'_succ]
        simp
      · rw [hrec.2.1]
        simp only [Nat.add_comm 1 (attemptsUsed oc (a + 1) fuel)]
        rw [List.range'_succ]
        simp

/-- How the retry attempt loop resolves the chunk, without a concurrent
backup writer: exhaustion (`.transient`) returns `success = false` with the
backup store untouched; a permanent classification backs the whole chunk up
and reports success; an actual success reports success with the store
untouched, the successful send being attempt `a + k - 1` where `k` counts the
attempts used. -/
theorem retryAttempts_file (cfg : Config) (oc : Nat → SendOutcome)
    (batch : List LogEntry) :
    ∀ (fuel a : Nat) (st : Engine), st.backupWriteInProgress = false →
    (chunkOutcome oc a fuel = .transient →
      (retryAttempts cfg oc batch a fuel st).2 = false ∧
      loadBackupLogsFromFile (retryAttempts cfg oc batch a fuel st).1
        = loadBackupLogsFromFile st) ∧
    (chunkOutcome oc a fuel = .permanent →
      (retryAttempts cfg oc batch a fuel st).2 = true ∧
      loadBackupLogsFromFile (retryAttempts cfg oc batch a fuel st).1
        = loadBackupLogsFromFile st ++ batch) ∧
    (chunkOutcome oc a fuel = .ok →
      (retryAttempts cfg oc batch a fuel st).2 = true ∧
      loadBackupLogsFromFile (retryAttempts cfg oc batch a fuel st).1
        = loadBackupLogsFromFile st ∧
      0 < attemptsUsed oc a fuel ∧
      oc (a + attemptsUsed oc a fuel - 1) = SendOutcome.success) := by
  intro fuel
  induction fuel with
  | zero =>
    intro a st hflag
    refine ⟨fun _ => ⟨rfl, rfl⟩, fun h => ?_, fun h => ?_⟩
    · simp [chunkOutcome] at h
    · simp [chunkOutcome] at h
  | succ fuel ih =>
    intro a st hflag
    unfold retryAttempts chunkOutcome attemptsUsed
    cases hc : classifySend (oc a) with
    | ok =>
      dsimp only
      refine ⟨fun h => by simp at h, fun h => by simp at h, fun _ => ?_⟩
      refine ⟨rfl, load_congr _ _ rfl, by omega, ?_⟩
      have := (classifySend_ok_iff (oc a)).mp hc
      simpa using this
    | permanent =>
      dsimp only
      refine ⟨fun h => by simp at h, fun _ => ?_, fun h => by simp at h⟩
      have hsp := backupBatch_spec batch
        { st with
            sleeps := st.sleeps ++ [cfg.backoffFactor * 2 ^ a]
            sent := st.sent ++ [(batch, oc a)] } (by simpa using hflag)
      refine ⟨rfl, ?_⟩
      rw [hsp.2.2]
      congr 1
    | transient =>
      dsimp only
      have hrec := ih (a + 1)
        { st with
            sleeps := st.sleeps ++ [cfg.backoffFactor * 2 ^ a]
            sent := st.sent ++ [(batch, oc a)] } (by simpa using hflag)
      have hload : loadBackupLogsFromFile
          { st with
              sleeps := st.sleeps ++ [cfg.backoffFactor * 2 ^ a]
              sent := st.sent ++ [(batch, oc a)] }
          = loadBackupLogsFromFile st := load_congr _ _ rfl
      refine ⟨fun h => ?_, fun h => ?_, fun h => ?_⟩
      · have := hrec.1 h
        exact ⟨this.1, this.2.trans hload⟩
      · have := hrec.2.1 h
        exact ⟨this.1, by rw [this.2, hload]⟩
      · have hr := hrec.2.2 h
        refine ⟨hr.1, hr.2.1.trans hload, by omega, ?_⟩
        have hidx : a + (1 + attemptsUsed oc (a + 1) fuel) - 1
            = a + 1 + attemptsUsed oc (a + 1) fuel - 1 := by omega
        rw [hidx]
        exact hr.2.2.2

/-- Processing of one chunk, without a concurrent backup writer: the other
state components are untouched; at most `retryLimit` attempts, each preceded
by its exponential-backoff sleep, are traced; a chunk resolving by success
leaves the backup store untouched and has its successful send on the trace;
a chunk resolving by permanent error or by exhaustion has every record
appended to the backup store. -/
theorem retryChunk_spec (cfg : Config) (oc : Nat → SendOutcome)
    (batch : List LogEntry) (st : Engine)
    (hflag : st.backupWriteInProgress = false) :
    (retryChunk cfg oc batch st).retryQueue = st.retryQueue ∧
    (retryChunk cfg oc batch st).logQueue = st.logQueue ∧
    (retryChunk cfg oc batch st).activeBatches = st.activeBatches ∧
    (retryChunk cfg oc batch st).initialized = st.initialized ∧
    (retryChunk cfg oc batch st).flushTimerOn = st.flushTimerOn ∧
    (retryChunk cfg oc batch st).retryTimerOn = st.retryTimerOn ∧
    (retryChunk cfg oc batch st).backupWriteInProgress = false ∧
    (retryChunk cfg oc batch st).sleeps
        = st.sleeps ++ (List.range (attemptsUsed oc 0 cfg.retryLimit)).map
            (fun i => cfg.backoffFactor * 2 ^ i) ∧
    (retryChunk cfg oc batch st).sent
        = st.sent ++ (List.range (attemptsUsed oc 0 cfg.retryLimit)).map
            (fun i => (batch, oc i)) ∧
    attemptsUsed oc 0 cfg.retryLimit ≤ cfg.retryLimit ∧
    (chunkOutcome oc 0 cfg.retryLimit = .ok →
      loadBackupLogsFromFile (retryChunk cfg oc batch st)
          = loadBackupLogsFromFile st ∧
      ∃ p ∈ (retryChunk cfg oc batch st).sent,
        p.2 = SendOutcome.success ∧ p.1 = batch) ∧
    (chunkOutcome oc 0 cfg.retryLimit ≠ .ok →
      loadBackupLogsFromFile (retryChunk cfg oc batch st)
          = loadBackupLogsFromFile st ++ batch) := by
  have hfr := retryAttempts_frame cfg oc batch cfg.retryLimit 0 st hflag
  have htr := retryAttempts_traces cfg oc batch cfg.retryLimit 0 st
  have hfi := retryAttempts_file cfg oc batch cfg.retryLimit 0 st hflag
  rcases hr : retryAttempts cfg oc batch 0 cfg.retryLimit st with ⟨st1, success⟩
  rw [hr] at hfr htr hfi
  have hrange : List.range' 0 (attemptsUsed oc 0 cfg.retryLimit)
      = List.range (attemptsUsed oc 0 cfg.retryLimit) :=
    (List.range_eq_range' (attemptsUsed oc 0 cfg.retryLimit)).symm
  rw [hrange] at htr
  cases hco : chunkOutcome oc 0 cfg.retryLimit with
  | ok =>
    have hok := hfi.2.2 hco
    simp only at hok
    have hres : retryChunk cfg oc batch st = st1 := by
      unfold retryChunk
      rw [hr, hok.1]
    rw [hres]
    refine ⟨hfr.1, hfr.2.1, hfr.2.2.1, hfr.2.2.2.1, hfr.2.2.2.2.1,
      hfr.2.2.2.2.2.1, hfr.2.2.2.2.2.2, htr.1, htr.2.1, htr.2.2,
      fun _ => ⟨hok.2.1, ?_⟩, fun hne => absurd rfl hne⟩
    refine ⟨(batch, oc (0 + attemptsUsed oc 0 cfg.retryLimit - 1)), ?_, ?_, rfl⟩
    · rw [htr.2.1]
      apply List.mem_append_right
      rw [List.mem_map]
      exact ⟨0 + attemptsUsed oc 0 cfg.retryLimit - 1,
        List.mem_range.mpr (by have := hok.2.2.1; omega), rfl⟩
    · exact hok.2.2.2
  | permanent =>
    have hpm := hfi.2.1 hco
    simp only at hpm
    have hres : retryChunk cfg oc batch st = st1 := by
      unfold retryChunk
      rw [hr, hpm.1]
    rw [hres]
    exact ⟨hfr.1, hfr.2.1, hfr.2.2.1, hfr.2.2.2.1, hfr.2.2.2.2.1,
      hfr.2.2.2.2.2.1, hfr.2.2.2.2.2.2, htr.1, htr.2.1, htr.2.2,
      fun hcontra => by simp at hcontra, fun _ => hpm.2⟩
  | transient =>
    have htc := hfi.1 hco
    simp only at htc
    have hres : retryChunk cfg oc batch st = backupBatch batch st1 := by
      unfold retryChunk
      rw [hr, htc.1]
    have hbf := backupBatch_frame batch st1
    have hbs := backupBatch_spec batch st1 hfr.2.2.2.2.2.2
    rw [hres]
    refine ⟨hbs.1.trans hfr.1, hbf.2.2.1.trans hfr.2.1,
      hbf.2.2.2.1.trans hfr.2.2.1, hbf.2.2.2.2.1.trans hfr.2.2.2.1,
      hbf.2.2.2.2.2.1.trans hfr.2.2.2.2.1, hbf.2.2.2.2.2.2.trans hfr.2.2.2.2.2.1,
      hbs.2.1, hbf.2.1.trans htr.1, hbf.1.trans htr.2.1, htr.2.2,
      fun hcontra => by simp at hcontra, fun _ => ?_⟩
    rw [hbs.2.2, htc.2]

/-- The chunks cover the snapshot exactly, in order. -/
theorem chunksOf_join (n : Nat) (l : List LogEntry) :
    (chunksOf n l).flatten = l := by
  cases l with
  | nil => simp [chunksOf]
  | cons x xs =>
    rw [chunksOf]
    by_cases hn : n = 0
    · simp [hn]
    · simp only [if_neg hn, List.flatten_cons]
      rw [chunksOf_join n ((x :: xs).drop n)]
      exact List.take_append_drop n (x :: xs)
termination_by l.length
decreasing_by
  simp only [List.length_drop, List.length_cons]
  omega

/-- Every chunk is non-empty and no longer than the batch size. -/
theorem chunksOf_mem_length (n : Nat) (hn : 0 < n) (l : List LogEntry) :
    ∀ c ∈ chunksOf n l, c ≠ [] ∧ c.length ≤ n := by
  cases l with
  | nil => simp [chunksOf]
  | cons x xs =>
    intro c hc
    rw [chunksOf] at hc
    rw [if_neg (by omega)] at hc
    rcases List.mem_cons.mp hc with h | h
    · subst h
      constructor
      · simp [List.take, hn]
        intro hcontra
        omega
      · exact List.length_take_le n (x :: xs)
    · exact chunksOf_mem_length n hn ((x :: xs).drop n) c h
termination_by l.length
decreasing_by
  simp only [List.length_drop, List.length_cons]
  omega

/-- The chunk loop of a retry cycle: the retry queue, ingestion queue,
counters and timers are untouched; the backup store and the send trace only
grow; and every record of every chunk ends the loop either in the backup
store or inside a successful send of the trace. -/
theorem retryLoop_spec (cfg : Config) (o : Nat → Nat → SendOutcome) :
    ∀ (cs : List (List LogEntry)) (i : Nat) (st : Engine),
    st.backupWriteInProgress = false →
    (retryLoop cfg o i cs st).retryQueue = st.retryQueue ∧
    (retryLoop cfg o i cs st).logQueue = st.logQueue ∧
    (retryLoop cfg o i cs st).activeBatches = st.activeBatches ∧
    (retryLoop cfg o i cs st).flushTimerOn = st.flushTimerOn ∧
    (retryLoop cfg o i cs st).retryTimerOn = st.retryTimerOn ∧
    (retryLoop cfg o i cs st).backupWriteInProgress = false ∧
    (∃ l, loadBackupLogsFromFile (retryLoop cfg o i cs st)
        = loadBackupLogsFromFile st ++ l) ∧
    (∃ l, (retryLoop cfg o i cs st).sent = st.sent ++ l) ∧
    (∀ c ∈ cs, ∀ e ∈ c,
      e ∈ loadBackupLogsFromFile (retryLoop cfg o i cs st) ∨
      ∃ p ∈ (retryLoop cfg o i cs st).sent,
        p.2 = SendOutcome.success ∧ e ∈ p.1) := by
  intro cs
  induction cs with
  | nil =>
    intro i st hflag
    refine ⟨rfl, rfl, rfl, rfl, rfl, hflag, ⟨[], by simp [retryLoop]⟩, ⟨[], by simp [retryLoop]⟩, ?_⟩
    intro c hc
    simp at hc
  | cons c cs ih =>
    intro i st hflag
    have hck := retryChunk_spec cfg (o i) c st hflag
    have hloop : retryLoop cfg o i (c :: cs) st
        = retryLoop cfg o (i + 1) cs (retryChunk cfg (o i) c st) := rfl
    have hrec := ih (i + 1) (retryChunk cfg (o i) c st) hck.2.2.2.2.2.2.1
    rw [hloop]
    refine ⟨hrec.1.trans hck.1, hrec.2.1.trans hck.2.1,
      hrec.2.2.1.trans hck.2.2.1, hrec.2.2.2.1.trans hck.2.2.2.2.1,
      hrec.2.2.2.2.1.trans hck.2.2.2.2.2.1, hrec.2.2.2.2.2.1, ?_, ?_, ?_⟩
    · obtain ⟨l1, hl1⟩ := hrec.2.2.2.2.2.2.1
      by_cases hco : chunkOutcome (o i) 0 cfg.retryLimit = .ok
      · obtain ⟨hload, _⟩ := hck.2.2.2.2.2.2.2.2.2.2.1 hco
        exact ⟨l1, by rw [hl1, hload]⟩
      · have hload := hck.2.2.2.2.2.2.2.2.2.2.2 hco
        exact ⟨c ++ l1, by rw [hl1, hload, List.append_assoc]⟩
    · obtain ⟨l1, hl1⟩ := hrec.2.2.2.2.2.2.2.1
      refine ⟨(List.range (attemptsUsed (o i) 0 cfg.retryLimit)).map
          (fun j => (c, o i j)) ++ l1, ?_⟩
      rw [hl1, hck.2.2.2.2.2.2.2.2.1, List.append_assoc]
    · intro c2 hc2 e he
      rcases List.mem_cons.mp hc2 with h | h
      · subst h
        by_cases hco : chunkOutcome (o i) 0 cfg.retryLimit = .ok
        · obtain ⟨_, p, hp, hps, hpb⟩ := hck.2.2.2.2.2.2.2.2.2.2.1 hco
          right
          obtain ⟨l1, hl1⟩ := hrec.2.2.2.2.2.2.2.1
          refine ⟨p, ?_, hps, by rw [hpb]; exact he⟩
          rw [hl1]
          exact List.mem_append_left _ hp
        · have hload := hck.2.2.2.2.2.2.2.2.2.2.2 hco
          left
          obtain ⟨l1, hl1⟩ := hrec.2.2.2.2.2.2.1
          rw [hl1, hload]
          exact List.mem_append_left _ (List.mem_append_right _ he)
      · exact hrec.2.2.2.2.2.2.2.2 c2 h e he

/-- C3: a retry cycle snapshots and clears the retry queue, re-chunks the
snapshot into contiguous chunks of the configured batch size and processes
them sequentially ; each chunk gets at most `retryLimit` send attempts, a
sleep of `backoffFactor * 2 ^ attemptIndex` preceding attempt `attemptIndex`
(indices from 0); and on a permanent classification or on exhausting the
retry limit every record of the chunk is written to the backup store. -/
theorem retryCycle_spec (cfg : Config) (o : Nat → Nat → SendOutcome)
    (st : Engine) (hbs : 0 < cfg.batchSize) (hq : st.retryQueue ≠ []) :
    retryFailedLogs cfg o st
      = retryLoop cfg o 0 (chunksOf cfg.batchSize st.retryQueue)
          { st with retryQueue := [] } ∧
    (chunksOf cfg.batchSize st.retryQueue).flatten = st.retryQueue ∧
    (∀ c ∈ chunksOf cfg.batchSize st.retryQueue,
      c ≠ [] ∧ c.length ≤ cfg.batchSize) ∧
    (∀ (oc : Nat → SendOutcome) (batch : List LogEntry) (st2 : Engine),
      st2.backupWriteInProgress = false →
      attemptsUsed oc 0 cfg.retryLimit ≤ cfg.retryLimit ∧
      (retryChunk cfg oc batch st2).sleeps
          = st2.sleeps ++ (List.range (attemptsUsed oc 0 cfg.retryLimit)).map
              (fun i => cfg.backoffFactor * 2 ^ i) ∧
      (retryChunk cfg oc batch st2).sent
          = st2.sent ++ (List.range (attemptsUsed oc 0 cfg.retryLimit)).map
              (fun i => (batch, oc i)) ∧
      (chunkOutcome oc 0 cfg.retryLimit ≠ .ok →
        loadBackupLogsFromFile (retryChunk cfg oc batch st2)
          = loadBackupLogsFromFile st2 ++ batch) ∧
      (chunkOutcome oc 0 cfg.retryLimit = .ok →
        loadBackupLogsFromFile (retryChunk cfg oc batch st2)
          = loadBackupLogsFromFile st2)) := by
  refine ⟨?_, chunksOf_join cfg.batchSize st.retryQueue,
    chunksOf_mem_length cfg.batchSize hbs st.retryQueue, ?_⟩
  · unfold retryFailedLogs
    rw [if_neg (by simpa using hq)]
  · intro oc batch st2 hflag2
    have hck := retryChunk_spec cfg oc batch st2 hflag2
    exact ⟨hck.2.2.2.2.2.2.2.2.2.1, hck.2.2.2.2.2.2.2.1,
      hck.2.2.2.2.2.2.2.2.1, hck.2.2.2.2.2.2.2.2.2.2.2,
      fun h => (hck.2.2.2.2.2.2.2.2.2.2.1 h).1⟩

/-- C7: the retry engine never re-adds a record to the retry queue during its
own processing: after a cycle the retry queue holds none of the snapshot, and
every snapshot record has ended either inside a successful send on the trace
or in the backup store. -/
theorem retry_no_requeue (cfg : Config) (o : Nat → Nat → SendOutcome)
    (st : Engine) (_hbs : 0 < cfg.batchSize)
    (hflag : st.backupWriteInProgress = false) :
    (retryFailedLogs cfg o st).retryQueue = [] ∧
    ∀ e ∈ st.retryQueue,
      e ∈ loadBackupLogsFromFile (retryFailedLogs cfg o st) ∨
      ∃ p ∈ (retryFailedLogs cfg o st).sent,
        p.2 = SendOutcome.success ∧ e ∈ p.1 := by
  by_cases hq : st.retryQueue.length = 0
  · have hnil := List.length_eq_zero.mp hq
    have hres : retryFailedLogs cfg o st = st := by
      unfold retryFailedLogs
      rw [if_pos hq]
    rw [hres, hnil]
    exact ⟨rfl, by simp⟩
  · have hres : retryFailedLogs cfg o st
        = retryLoop cfg o 0 (chunksOf cfg.batchSize st.retryQueue)
            { st with retryQueue := [] } := by
      unfold retryFailedLogs
      rw [if_neg hq]
    have hloop := retryLoop_spec cfg o (chunksOf cfg.batchSize st.retryQueue) 0
      { st with retryQueue := [] } (by simpa using hflag)
    constructor
    · rw [hres]
      exact hloop.1
    · intro e he
      have hmem : e ∈ (chunksOf cfg.batchSize st.retryQueue).flatten := by
        rw [chunksOf_join]
        exact he
      obtain ⟨c, hc, hec⟩ := List.mem_flatten.mp hmem
      rw [hres]
      exact hloop.2.2.2.2.2.2.2.2 c hc e hec

theorem flushEnd_flag (o : SendOutcome) (b : List LogEntry) (st : Engine)
    (h : st.backupWriteInProgress = false) :
    (flushEnd o b st).backupWriteInProgress = false := by
  cases hc : classifySend o with
  | ok => simpa [flushEnd, hc] using h
  | transient => simpa [flushEnd, hc] using h
  | permanent =>
    have hb := (backupBatch_spec b { st with sent := st.sent ++ [(b, o)] }
      (by simpa using h)).2.1
    simpa [flushEnd, hc] using hb

theorem flushLogs_frame (cfg : Config) (o : SendOutcome) (st : Engine) :
    (flushLogs cfg o st).flushTimerOn = st.flushTimerOn ∧
    (flushLogs cfg o st).retryTimerOn = st.retryTimerOn ∧
    (st.backupWriteInProgress = false →
      (flushLogs cfg o st).backupWriteInProgress = false) := by
  by_cases hcond : st.logQueue.length = 0 ∨ st.activeBatches ≥ cfg.maxConcurrentBatches
  · unfold flushLogs
    rw [flushBegin_noop cfg st hcond]
    exact ⟨rfl, rfl, fun h => h⟩
  · by_cases hb : (((st.logQueue.take (min cfg.batchSize st.logQueue.length)).filter
        validateLog).map sanitizeLog).length = 0
    · unfold flushLogs
      rw [flushBegin_allInvalid cfg st hcond hb]
      exact ⟨rfl, rfl, fun h => h⟩
    · unfold flushLogs
      rw [flushBegin_batch cfg st hcond hb]
      have hfe := flushEnd_frame o
        (((st.logQueue.take (min cfg.batchSize st.logQueue.length)).filter
            validateLog).map sanitizeLog)
        { st with
            logQueue := st.logQueue.drop (min cfg.batchSize st.logQueue.length)
            activeBatches := st.activeBatches + 1 }
      refine ⟨hfe.2.2.2.2.2.1, hfe.2.2.2.2.2.2, fun h => ?_⟩
      exact flushEnd_flag o _ _ (by simpa using h)

theorem retryFailedLogs_frame (cfg : Config) (oR : Nat → Nat → SendOutcome)
    (st : Engine) (hflag : st.backupWriteInProgress = false) :
    (retryFailedLogs cfg oR st).logQueue = st.logQueue ∧
    (retryFailedLogs cfg oR st).flushTimerOn = st.flushTimerOn ∧
    (retryFailedLogs cfg oR st).retryTimerOn = st.retryTimerOn ∧
    (retryFailedLogs cfg oR st).activeBatches = st.activeBatches := by
  by_cases hq : st.retryQueue.length = 0
  · unfold retryFailedLogs
    rw [if_pos hq]
    exact ⟨rfl, rfl, rfl, rfl⟩
  · unfold retryFailedLogs
    rw [if_neg hq]
    have hloop := retryLoop_spec cfg oR (chunksOf cfg.batchSize st.retryQueue) 0
      { st with retryQueue := [] } (by simpa using hflag)
    exact ⟨hloop.2.1, hloop.2.2.2.1, hloop.2.2.2.2.1, hloop.2.2.1⟩

/-- C5 (amended): `close` stops both timers (after draining in-flight work,
here the hypothesis that the in-flight counter is zero), performs one final
flush of at most one batch — so records beyond the first
`min(batchSize, queueLength)` remain in the ingestion queue — and one final
retry pass; on an already-drained engine a further `close` is a no-op beyond
stopping the timers. -/
theorem close_amended (cfg : Config) (o : SendOutcome)
    (oR : Nat → Nat → SendOutcome) (st : Engine)
    (hact : st.activeBatches = 0) (hflag : st.backupWriteInProgress = false) :
    (close cfg o oR st).flushTimerOn = false ∧
    (close cfg o oR st).retryTimerOn = false ∧
    (st.logQueue ≠ [] → 0 < cfg.maxConcurrentBatches →
      (close cfg o oR st).logQueue
        = st.logQueue.drop (min cfg.batchSize st.logQueue.length)) ∧
    (∀ st2 : Engine, st2.logQueue = [] → st2.retryQueue = [] →
      close cfg o oR st2
        = { st2 with flushTimerOn := false, retryTimerOn := false }) := by
  have hclose : close cfg o oR st
      = retryFailedLogs cfg oR
          (flushLogs cfg o { st with flushTimerOn := false, retryTimerOn := false }) := rfl
  have hff := flushLogs_frame cfg o { st with flushTimerOn := false, retryTimerOn := false }
  have hflag1 : (flushLogs cfg o
      { st with flushTimerOn := false, retryTimerOn := false }).backupWriteInProgress
      = false := hff.2.2 (by simpa using hflag)
  have hrf := retryFailedLogs_frame cfg oR
    (flushLogs cfg o { st with flushTimerOn := false, retryTimerOn := false }) hflag1
  refine ⟨?_, ?_, ?_, ?_⟩
  · rw [hclose, hrf.2.1, hff.1]
  · rw [hclose, hrf.2.2.1, hff.2.1]
  · intro hq hcap
    have hfb := (flushLogs_behavior cfg o
      { st with flushTimerOn := false, retryTimerOn := false }).2
      (by simpa using hq) (by simpa [hact] using hcap)
    rw [hclose, hrf.1, hfb.1]
  · intro st2 h2q h2r
    have hclose2 : close cfg o oR st2
        = retryFailedLogs cfg oR
            (flushLogs cfg o
              { st2 with flushTimerOn := false, retryTimerOn := false }) := rfl
    have hfl2 : flushLogs cfg o { st2 with flushTimerOn := false, retryTimerOn := false }
        = { st2 with flushTimerOn := false, retryTimerOn := false } :=
      (flushLogs_behavior cfg o _).1 (Or.inl (by simpa using h2q))
    have hrt2 : retryFailedLogs cfg oR
        { st2 with flushTimerOn := false, retryTimerOn := false }
        = { st2 with flushTimerOn := false, retryTimerOn := false } := by
      unfold retryFailedLogs
      rw [if_pos (by simpa using congrArg List.length h2r)]
    rw [hclose2, hfl2, hrt2]

/-- Witness for the size-trigger theorem: batch size 2, two valid records. -/
theorem log_sizeTrigger_witness :
    (∀ k < cfgW.batchSize,
      (logMany cfgW ([(infoA, 0), (infoB, 0)].take k) SendOutcome.success
          engineInit).sent = []) ∧
    (logMany cfgW [(infoA, 0), (infoB, 0)] SendOutcome.success engineInit).sent
      = [([mkLogEntry infoA 0, mkLogEntry infoB 0], SendOutcome.success)] := by
  have h := log_sizeTrigger cfgW SendOutcome.success engineInit
    [(infoA, 0), (infoB, 0)] (by decide) rfl rfl (by decide) rfl (by decide)
  exact ⟨fun k hk => h.1 k hk, by simpa using h.2.1⟩

/-- Witness for the flush-time classification theorem: a network error
re-queues the batch, an HTTP 401 backs it up. -/
theorem flushEnd_classification_witness :
    (flushEnd SendOutcome.netError [entryA] engine0).retryQueue = [entryA] ∧
    loadBackupLogsFromFile (flushEnd SendOutcome.netError [entryA] engine0)
      = [] ∧
    (flushEnd (SendOutcome.httpStatus 401) [entryA] engine0).retryQueue = [] ∧
    loadBackupLogsFromFile
        (flushEnd (SendOutcome.httpStatus 401) [entryA] engine0)
      = [entryA] := by
  have h1 := flushEnd_classification SendOutcome.netError [entryA] engine0 rfl
  have h2 := flushEnd_classification (SendOutcome.httpStatus 401) [entryA]
    engine0 rfl
  obtain ⟨ha, hb⟩ := h1.1 rfl
  obtain ⟨hc, hd⟩ := h2.2 (by decide)
  exact ⟨by simpa using ha, by simpa using hb, by simpa using hc,
    by simpa using hd⟩

/-- Witness for the retry-cycle theorem: two records, batch size 2. -/
theorem retryCycle_spec_witness :
    (chunksOf cfgW.batchSize stRetryAB.retryQueue).flatten
      = stRetryAB.retryQueue ∧
    (∀ c ∈ chunksOf cfgW.batchSize stRetryAB.retryQueue,
      c ≠ [] ∧ c.length ≤ cfgW.batchSize) := by
  have h := retryCycle_spec cfgW (fun _ _ => SendOutcome.success) stRetryAB
    (by decide) (by decide)
  exact ⟨h.2.1, h.2.2.1⟩

/-- Witness for the `init` theorem: a backup file holding one record is
loaded into the queue and truncated, and `log` before `init` only appends. -/
theorem init_behavior_witness :
    (init stBackupA).logQueue = [entryA] ∧
    loadBackupLogsFromFile (init stBackupA) = [] ∧
    (init stBackupA).initialized = true ∧
    init (init stBackupA) = init stBackupA ∧
    log cfgW infoA 0 SendOutcome.success stBackupA
      = { stBackupA with logQueue := [mkLogEntry infoA 0] } := by
  have h := init_behavior stBackupA
  obtain ⟨h1, h2, h3, _, _⟩ := h.2.2.1 rfl
  refine ⟨?_, h2, h3, h.1, ?_⟩
  · rw [h1]
    decide
  · exact h.2.2.2 cfgW infoA 0 SendOutcome.success rfl

/-- Witness for the flush-behavior theorem: a no-op on an empty queue, and
with batch size 1 on a queue of two the first record alone is flushed. -/
theorem flushLogs_behavior_witness :
    flushLogs cfgW SendOutcome.success engine0 = engine0 ∧
    (flushLogs cfgW1 SendOutcome.success stTwo).logQueue = [entryB] ∧
    (flushLogs cfgW1 SendOutcome.success stTwo).activeBatches
      = stTwo.activeBatches := by
  have h1 := (flushLogs_behavior cfgW SendOutcome.success engine0).1
    (Or.inl rfl)
  have h2 := (flushLogs_behavior cfgW1 SendOutcome.success stTwo).2
    (by decide) (by decide)
  refine ⟨h1, ?_, ?_⟩
  · rw [h2.1]
    decide
  · exact (h2.2.2 (by decide)).2.2

/-- Witness for the no-requeue theorem: one record, one successful retry. -/
theorem retry_no_requeue_witness :
    (retryFailedLogs cfgW (fun _ _ => SendOutcome.success) stRetryA).retryQueue
      = [] ∧
    (entryA ∈ loadBackupLogsFromFile
        (retryFailedLogs cfgW (fun _ _ => SendOutcome.success) stRetryA) ∨
      ∃ p ∈ (retryFailedLogs cfgW (fun _ _ => SendOutcome.success) stRetryA).sent,
        p.2 = SendOutcome.success ∧ entryA ∈ p.1) := by
  have h := retry_no_requeue cfgW (fun _ _ => SendOutcome.success) stRetryA
    (by decide) rfl
  exact ⟨h.1, h.2 entryA (by decide)⟩

/-- Witness for the backup round-trip theorem: two records through
`backupFailedLog` and back. -/
theorem backup_roundTrip_witness :
    loadBackupLogsFromFile
        ([entryA, entryB].foldl (fun s e => backupFailedLog e s) engine0)
      = [entryA, entryB] :=
  backup_roundTrip [entryA, entryB] engine0 rfl (Or.inl rfl)

/-- Witness for the falsy-defaults theorem: all four zeroes at once. -/
theorem mkConfig_falsy_defaults_witness :
    (mkConfig optsZero).retryLimit = 3 ∧
    (mkConfig optsZero).backoffFactor = 1000 ∧
    (mkConfig optsZero).requestTimeout = 5000 ∧
    (mkConfig optsZero).maxConcurrentBatches = 3 ∧
    0 < (mkConfig optsZero).retryLimit := by
  have h := mkConfig_falsy_defaults optsZero
  exact ⟨h.1 rfl, h.2.1 rfl, h.2.2.1 rfl, h.2.2.2.1 rfl, h.2.2.2.2⟩

/-- Witness for the fresh-timestamp theorem: the input timestamp `"ignored"`
does not reach the stored entry and the entry validates. -/
theorem log_fresh_timestamp_witness :
    (mkLogEntry infoB 0).timestamp = .str (toISOString 0) ∧
    mkLogEntry infoB2 0 = mkLogEntry infoB 0 ∧
    dateParse (toISOString 0) = some 0 ∧
    validateLog (mkLogEntry infoB 0) = true := by
  have h := log_fresh_timestamp infoB 0
  exact ⟨h.1, h.2.1 _ rfl rfl, h.2.2.2.1, h.2.2.2.2 rfl rfl⟩

/-- Witness for the amended `close` theorem. -/
theorem close_amended_witness :
    (close cfgW1 SendOutcome.success (fun _ _ => SendOutcome.success)
        stTwo).flushTimerOn = false ∧
    (close cfgW1 SendOutcome.success (fun _ _ => SendOutcome.success)
        stTwo).logQueue = [entryB] := by
  have h := close_amended cfgW1 SendOutcome.success
    (fun _ _ => SendOutcome.success) stTwo rfl rfl
  refine ⟨h.1, ?_⟩
  rw [h.2.2.1 (by decide) (by decide)]
  decide

/-- The original `close` claim fails: with batch size 1 and two enqueued
records, the final flush of `close` sends only the first record; the second
remains in the ingestion queue — in memory only, neither delivered nor in
the backup store — after `close` resolves. -/
theorem close_counterexample :
    (close cfgW1 SendOutcome.success (fun _ _ => SendOutcome.success)
        stTwo).logQueue = [entryB] ∧
    loadBackupLogsFromFile
        (close cfgW1 SendOutcome.success (fun _ _ => SendOutcome.success)
          stTwo) = [] ∧
    (close cfgW1 SendOutcome.success (fun _ _ => SendOutcome.success)
        stTwo).sent = [([entryA], SendOutcome.success)] := by
  have hsan : sanitizeLog entryA = entryA :=
    sanitizeLog_mkLogEntry infoA 0 (by decide)
  have hcond : ¬(stTwoClosed.logQueue.length = 0 ∨
      stTwoClosed.activeBatches ≥ cfgW1.maxConcurrentBatches) := by decide
  have hb : ¬(((stTwoClosed.logQueue.take
      (min cfgW1.batchSize stTwoClosed.logQueue.length)).filter
        validateLog).map sanitizeLog).length = 0 := by
    simp only [List.length_map]
    decide
  have hbatch : ((stTwoClosed.logQueue.take
      (min cfgW1.batchSize stTwoClosed.logQueue.length)).filter
        validateLog).map sanitizeLog = [entryA] := by
    have h1 : (stTwoClosed.logQueue.take
        (min cfgW1.batchSize stTwoClosed.logQueue.length)).filter validateLog
        = [entryA] := by decide
    rw [h1, List.map_cons, List.map_nil, hsan]
  have hclose : close cfgW1 SendOutcome.success (fun _ _ => SendOutcome.success)
      stTwo
      = retryFailedLogs cfgW1 (fun _ _ => SendOutcome.success)
          (flushLogs cfgW1 SendOutcome.success stTwoClosed) := rfl
  have hflush : flushLogs cfgW1 SendOutcome.success stTwoClosed
      = flushEnd SendOutcome.success [entryA]
          { stTwoClosed with
              logQueue := stTwoClosed.logQueue.drop
                (min cfgW1.batchSize stTwoClosed.logQueue.length)
              activeBatches := stTwoClosed.activeBatches + 1 } := by
    unfold flushLogs
    rw [flushBegin_batch cfgW1 stTwoClosed hcond hb, hbatch]
  rw [hclose, hflush]
  refine ⟨?_, ?_, ?_⟩ <;> decide
